import Mathlib

/-!
Verification development for the auth-header-injector extension's core logic:
the specificity scorer, the hostname matcher, the rule compiler, and the
request-statistics updater. Each definition is a shallow embedding of the
corresponding function in the repository source:

- calculateSpecificity, matchesHostname, extractDomainPattern, extractHostname,
  findMatchingRule, updateStats: src/background/utils/requestTracking.ts
- buildAuthHeaderValue, the enable/compile pipeline: the request-interceptor
  plugin (buildAuthHeaderValue, interceptor.enable)

JavaScript strings are modelled as Lean String / List Char; JS numbers holding
integer counts and timestamps as Nat; the specificity score (which can be
negative) as Int; thrown exceptions as Except/Option.
-/

namespace AuthInjector

/-! ### Specificity scorer (calculateSpecificity)

The source computes
  cleanPattern = pattern.replace(A, '').replace(B, '')
where A is the anchored regex dropping a leading scheme ("one or more
non-colon characters, then colon-slash-slash") and B drops everything from a
slash to the end of the string.  The JavaScript dot metacharacter does not
match line terminators and the dollar anchor (no m flag) matches only at the
very end, so B fires at the leftmost slash whose tail contains no line
terminator.  Then wildcards are counted over cleanPattern, the pattern is
split on dots, and segments that are non-empty and not a bare wildcard are
counted; the score is specificParts * 10 - wildcardCount. -/

/-- The four JavaScript line terminators, which the dot metacharacter never
matches. -/
def lineTerm (c : Char) : Bool :=
  c == '\n' || c == '\r' || c == '\u2028' || c == '\u2029'

/-- True when no character of the list is a line terminator. -/
def noLineTerm (cs : List Char) : Bool :=
  cs.all (fun c => !lineTerm c)

/-- Models pattern.replace with the leading-scheme regex: if the first colon
appears at index at least 1 and is immediately followed by two slashes, drop
everything through the second slash; otherwise leave the string unchanged.
(The regex engine's greedy run of non-colon characters always stops at the
first colon, so only the first colon can start the scheme separator.) -/
def stripScheme (cs : List Char) : List Char :=
  match cs.findIdx? (fun c => c == ':') with
  | some i =>
    if 1 ≤ i then
      match cs.drop i with
      | ':' :: '/' :: '/' :: _ => cs.drop (i + 3)
      | _ => cs
    else cs
  | none => cs

/-- Models pattern.replace with the trailing-path regex: truncate at the
leftmost slash whose tail is free of line terminators (the dot metacharacter
cannot cross a line terminator and the dollar anchor requires the end of the
string); if no slash qualifies, leave the string unchanged. -/
def stripPath : List Char → List Char
  | [] => []
  | c :: cs => if c == '/' && noLineTerm cs then [] else c :: stripPath cs

/-- Models String.prototype.split with separator dot: splitting the empty
string yields one empty segment. -/
def splitOnDot : List Char → List (List Char)
  | [] => [[]]
  | c :: cs =>
    if c == '.' then [] :: splitOnDot cs
    else
      match splitOnDot cs with
      | [] => [[c]]
      | s :: ss => (c :: s) :: ss

/-- The cleaned pattern: scheme prefix stripped, then path suffix stripped. -/
def cleanPattern (p : String) : List Char :=
  stripPath (stripScheme p.data)

/-- Total number of wildcard characters in the cleaned pattern. -/
def wildcardCount (cs : List Char) : Nat :=
  cs.countP (fun c => c == '*')

/-- Number of dot-separated segments that are non-empty and not the literal
bare wildcard. -/
def specificParts (cs : List Char) : Nat :=
  ((splitOnDot cs).filter (fun seg => seg != ['*'] && !seg.isEmpty)).length

/-- Shallow embedding of calculateSpecificity from requestTracking.ts. -/
def calculateSpecificity (p : String) : Int :=
  (specificParts (cleanPattern p) : Int) * 10 - (wildcardCount (cleanPattern p) : Int)

/-! ### Hostname matcher (matchesHostname)

The source builds a regex from the domain pattern by escaping every regex
metacharacter except the asterisk and then replacing each asterisk with
dot-asterisk, wraps it in start/end anchors, compiles it case-insensitively,
and tests the hostname; a compilation failure is caught and reported as
false.  We model the produced regex fragment as a list of items (literal,
dot, star) produced by a small compiler parseRegexItems that rejects bare
metacharacters (the failure mode of new RegExp), and run it as an anchored
glob in runGlob: a literal matches exactly its character, dot matches any
non-line-terminator, star matches any run of non-line-terminators.  The
case-insensitive flag is modelled by ASCII-folding both the pattern and the
hostname before matching: folding only rewrites uppercase ASCII letters,
which are neither metacharacters nor wildcards, so folding the pattern before
escaping is equivalent to folding at each literal comparison. -/

/-- ASCII lowercasing of one character, the effect of the case-insensitive
flag on the ASCII range. -/
def asciiLower (c : Char) : Char :=
  if 'A' ≤ c ∧ c ≤ 'Z' then Char.ofNat (c.toNat + 32) else c

/-- ASCII-fold a whole string (as a character list). -/
def asciiFold (cs : List Char) : List Char :=
  cs.map asciiLower

/-- The metacharacters escaped by the source's first replace: every regex
special character except the asterisk. -/
def regexSpecial (c : Char) : Bool :=
  c == '.' || c == '+' || c == '?' || c == '^' || c == '$' || c == '{' ||
  c == '}' || c == '(' || c == ')' || c == '|' || c == '[' || c == ']' ||
  c == '\\'

/-- The two replace passes of the source fused into one walk: a special
character is escaped with a backslash, an asterisk becomes dot-asterisk, any
other character is kept.  (The first pass introduces only backslashes and
never touches asterisks, so the passes commute into this single walk.) -/
def escapeRegex : List Char → List Char
  | [] => []
  | c :: cs =>
    if regexSpecial c then '\\' :: c :: escapeRegex cs
    else if c == '*' then '.' :: '*' :: escapeRegex cs
    else c :: escapeRegex cs

/-- One item of the compiled matcher: a literal character, the dot
metacharacter, or a dot-asterisk wildcard. -/
inductive GItem where
  | lit (c : Char)
  | dot
  | star
deriving DecidableEq

/-- A model of the regex compiler on the fragment reachable from
escapeRegex: backslash-escaped literals, dot, dot-asterisk, and plain
non-special characters; a bare metacharacter is a compilation failure
(returns none), standing in for the exception new RegExp would raise. -/
def parseRegexItems : List Char → Option (List GItem)
  | [] => some []
  | c :: rest =>
    if c == '\\' then
      match rest with
      | [] => none
      | d :: rest2 => (parseRegexItems rest2).map (fun items => GItem.lit d :: items)
    else if c == '.' then
      if rest.head? == some '*' then
        match rest with
        | [] => none
        | _ :: rest2 => (parseRegexItems rest2).map (fun items => GItem.star :: items)
      else (parseRegexItems rest).map (fun items => GItem.dot :: items)
    else if regexSpecial c || c == '*' then none
    else (parseRegexItems rest).map (fun items => GItem.lit c :: items)

/-- The suffixes reachable from a string by letting a dot-asterisk wildcard
consume zero or more characters; consumption stops at a line terminator. -/
def starConsume : List Char → List (List Char)
  | [] => [[]]
  | c :: cs => (c :: cs) :: (if lineTerm c then [] else starConsume cs)

/-- Run a compiled matcher against a whole string (the start/end anchors of
the source's regex make the test a full match). -/
def runGlob : List GItem → List Char → Bool
  | [], s => s.isEmpty
  | GItem.lit p :: ps, s =>
    match s with
    | [] => false
    | c :: cs => p == c && runGlob ps cs
  | GItem.dot :: ps, s =>
    match s with
    | [] => false
    | c :: cs => !lineTerm c && runGlob ps cs
  | GItem.star :: ps, s => (starConsume s).any (fun t => runGlob ps t)

/-- Shallow embedding of matchesHostname from requestTracking.ts: build the
matcher from the escaped, folded pattern and run it on the folded hostname;
a compilation failure is caught and yields false. -/
def matchesHostname (hostname domainPattern : String) : Bool :=
  match parseRegexItems (escapeRegex (asciiFold domainPattern.data)) with
  | some items => runGlob items (asciiFold hostname.data)
  | none => false

/-! ### Domain-pattern extraction and URL hostname extraction -/

/-- Models String.prototype.includes with the three-character
colon-slash-slash needle. -/
def containsSchemeSep : List Char → Bool
  | ':' :: '/' :: '/' :: _ => true
  | _ :: rest => containsSchemeSep rest
  | [] => false

/-- Models the capturing regex of extractDomainPattern: one or more
non-colon characters from the start, the colon-slash-slash separator, then a
captured non-empty run of non-slash characters.  Returns the capture, or
none when the regex does not match. -/
def hostCapture (cs : List Char) : Option (List Char) :=
  match cs.findIdx? (fun c => c == ':') with
  | some i =>
    if 1 ≤ i then
      match cs.drop i with
      | ':' :: '/' :: '/' :: rest =>
        match rest.takeWhile (fun c => c != '/') with
        | [] => none
        | host => some host
      | _ => none
    else none
  | none => none

/-- Shallow embedding of extractDomainPattern from requestTracking.ts. -/
def extractDomainPattern (p : String) : String :=
  if containsSchemeSep p.data then
    match hostCapture p.data with
    | some host => String.mk host
    | none => p
  else p

/-- Shallow embedding of extractHostname from requestTracking.ts.  The
platform URL parser (new URL(url).hostname) is an external capability, passed
in as a function that either returns the hostname or raises; the try/catch of
the source maps the raised case to null. -/
def extractHostname (urlHostname : String → Except String String) (url : String) :
    Option String :=
  match urlHostname url with
  | Except.ok h => some h
  | Except.error _ => none

/-! ### Rules and the first-match lookup -/

/-- The AuthRule record of shared/types.ts.  The scheme field is optional in
the TypeScript type and absent on rules persisted before the field existed,
and the storage channel is untyped JSON, so it is modelled as an optional
string. -/
structure AuthRule where
  id : String
  pattern : String
  token : String
  label : Option String := none
  scheme : Option String := none
  enabled : Bool
  createdAt : Nat
  updatedAt : Nat
deriving DecidableEq

/-- Shallow embedding of findMatchingRule from requestTracking.ts: extract
the hostname (skip on failure), then return the first rule whose extracted
domain pattern matches it.  Note there is no filtering on the enabled flag
here; the background listener pre-filters to enabled rules before calling. -/
def findMatchingRule (urlHostname : String → Except String String) (url : String)
    (rules : List AuthRule) : Option AuthRule :=
  match extractHostname urlHostname url with
  | none => none
  | some hostname =>
    rules.find? (fun rule => matchesHostname hostname (extractDomainPattern rule.pattern))

/-! ### Header value construction (buildAuthHeaderValue) -/

/-- Shallow embedding of buildAuthHeaderValue from the request-interceptor
plugin.  The source computes scheme-or-Bearer (JavaScript falsiness: both an
absent scheme and an empty string fall back), then switches with a default
branch that also falls back to Bearer. -/
def buildAuthHeaderValue (scheme : Option String) (token : String) : String :=
  let authScheme : String :=
    match scheme with
    | none => "Bearer"
    | some s => if s == "" then "Bearer" else s
  if authScheme == "Bearer" then "Bearer " ++ token
  else if authScheme == "Raw" then token
  else if authScheme == "Basic" then "Basic " ++ token
  else "Bearer " ++ token

/-! ### The rule compiler (interceptor.enable)

enable reads the rules, filters to enabled ones, rejects more than 300 with
an error carrying the attempted count and the limit, sorts a copy by
descending specificity with Array.prototype.sort (stable per the ECMAScript
specification; modelled by the stable List.mergeSort), and maps each rule to
a Chrome declarativeNetRequest rule with a 1-based id, priority 1000 plus the
specificity score, the computed Authorization header value, the pattern as
urlFilter, and the fixed resource types. -/

/-- The declarativeNetRequest rule built per auth rule: the action is always
a modifyHeaders set of the Authorization header, so only its value is kept
as a field. -/
structure ChromeRule where
  id : Nat
  priority : Int
  headerValue : String
  urlFilter : String
  resourceTypes : List String
deriving DecidableEq

/-- The payload of the limit-reached event and of the thrown capacity error:
the attempted enabled-rule count and the hard limit. -/
structure LimitError where
  count : Nat
  limit : Nat
deriving DecidableEq

/-- The sort comparator (a, b) => specificity b - specificity a, as the
boolean ordering it induces: a precedes b when b's score does not exceed
a's. -/
def ruleLe (a b : AuthRule) : Bool :=
  decide (calculateSpecificity b.pattern ≤ calculateSpecificity a.pattern)

/-- The map over the sorted rules building Chrome rules with 1-based ids
(index + 1). -/
def buildChromeRules : Nat → List AuthRule → List ChromeRule
  | _, [] => []
  | i, r :: rs =>
    { id := i + 1
      priority := 1000 + calculateSpecificity r.pattern
      headerValue := buildAuthHeaderValue r.scheme r.token
      urlFilter := r.pattern
      resourceTypes := ["xmlhttprequest", "other"] } :: buildChromeRules (i + 1) rs

/-- The enabled rules sorted by descending specificity (stable). -/
def sortedEnabled (rules : List AuthRule) : List AuthRule :=
  (rules.filter (fun r => r.enabled)).mergeSort ruleLe

/-- Shallow embedding of the pure core of interceptor.enable: filter to
enabled rules, reject over the 300 limit with the error payload, otherwise
produce the sorted directive list. -/
def compile (rules : List AuthRule) : Except LimitError (List ChromeRule) :=
  let enabledRules := rules.filter (fun r => r.enabled)
  if enabledRules.length > 300 then
    Except.error { count := enabledRules.length, limit := 300 }
  else
    Except.ok (buildChromeRules 0 (enabledRules.mergeSort ruleLe))

/-- The effect of enable on the engine's installed directive set: on success
the whole set is replaced; on failure the error is thrown before the
updateDynamicRules call, so the previously installed set is untouched. -/
def enableEngine (rules : List AuthRule) (engine : List ChromeRule) : List ChromeRule :=
  match compile rules with
  | Except.ok ds => ds
  | Except.error _ => engine

/-! ### Request statistics (updateStats), value level

The source's updateStats is documented and written as a pure function: it
spreads the map, replaces the touched entry by a fresh object, bumps count,
refreshes lastSeen, and appends the rule id when absent.  JavaScript objects
are string-keyed with insertion order; we model the map as an association
list where assignment replaces the first matching key in place or appends.
Date.now() is called at entry creation and again at the update, but the
creation value is always overwritten before it can be observed, so a single
now parameter models both calls. -/

/-- One domain's statistics record. -/
structure DomainStats where
  count : Nat
  lastSeen : Nat
  ruleIds : List String
deriving DecidableEq

/-- The statistics map, keyed by hostname. -/
abbrev RequestStatsMap := List (String × DomainStats)

/-- Property read: first entry with the given key, if any. -/
def getStat (m : RequestStatsMap) (domain : String) : Option DomainStats :=
  (m.find? (fun p => p.1 == domain)).map (fun p => p.2)

/-- Property write: replace the first entry with the given key in place, or
append a new entry. -/
def setStat : RequestStatsMap → String → DomainStats → RequestStatsMap
  | [], domain, v => [(domain, v)]
  | (k, w) :: rest, domain, v =>
    if k == domain then (domain, v) :: rest else (k, w) :: setStat rest domain v

/-- Shallow embedding of updateStats from requestTracking.ts at the value
level. -/
def updateStats (currentStats : RequestStatsMap) (domain ruleId : String) (now : Nat) :
    RequestStatsMap :=
  let base : DomainStats :=
    match getStat currentStats domain with
    | none => { count := 0, lastSeen := now, ruleIds := [] }
    | some s => s
  let bumped : DomainStats := { base with count := base.count + 1, lastSeen := now }
  let updated : DomainStats :=
    if ruleId ∈ bumped.ruleIds then bumped
    else { bumped with ruleIds := bumped.ruleIds ++ [ruleId] }
  setStat currentStats domain updated

/-- Count of the matched domain's entry, treating a missing entry as 0. -/
def statCount (m : RequestStatsMap) (domain : String) : Nat :=
  match getStat m domain with
  | none => 0
  | some s => s.count

/-- Rule-id list of the matched domain's entry, treating a missing entry as
empty. -/
def statRuleIds (m : RequestStatsMap) (domain : String) : List String :=
  match getStat m domain with
  | none => []
  | some s => s.ruleIds

/-! ### Request statistics, heap level

The no-mutation contract of updateStats is about JavaScript object identity,
so it is stated against an explicit heap model.  A heap holds the three kinds
of objects updateStats touches: the stats map (domain name to the address of
a DomainStats object), a DomainStats object (count, lastSeen, and the address
of its ruleIds array), and an array of rule-id strings.  Allocation hands out
the next fresh address; a property assignment to an existing object is a
store to its address.  updateStatsH replays the source line by line: spread
the map into a fresh object, either allocate a fresh entry (with a fresh
empty array) or shallow-copy the existing entry (sharing the old ruleIds
address), assign it into the fresh map, bump count and lastSeen on the copy,
and when the rule id is absent allocate the extended array and repoint the
copy at it.  Reads of absent or ill-typed addresses return none, so ill-typed
heaps are simply rejected. -/

/-- A JavaScript object relevant to updateStats. -/
inductive HVal where
  | mapObj (entries : List (String × Nat))
  | statObj (count : Nat) (lastSeen : Nat) (ruleIds : Nat)
  | arrObj (elems : List String)
deriving DecidableEq

/-- The heap: the next fresh address and the allocated cells. -/
structure Heap where
  next : Nat
  mem : List (Nat × HVal)
deriving DecidableEq

/-- Read the object at an address. -/
def Heap.lookup (h : Heap) (a : Nat) : Option HVal :=
  (h.mem.find? (fun p => p.1 == a)).map (fun p => p.2)

/-- Allocate a fresh object, returning the new heap; the fresh address is the
old value of next. -/
def Heap.alloc (h : Heap) (v : HVal) : Heap :=
  { next := h.next + 1, mem := (h.next, v) :: h.mem }

/-- Overwrite the object at an address (a property assignment on an existing
object). -/
def Heap.write (h : Heap) (a : Nat) (v : HVal) : Heap :=
  { h with mem := h.mem.map (fun p => if p.1 == a then (a, v) else p) }

/-- Property read on the map object's entry list (first match). -/
def assocGet (entries : List (String × Nat)) (k : String) : Option Nat :=
  (entries.find? (fun p => p.1 == k)).map (fun p => p.2)

/-- Property write on the map object's entry list: replace the first match in
place or append. -/
def assocSet : List (String × Nat) → String → Nat → List (String × Nat)
  | [], k, a => [(k, a)]
  | (k0, a0) :: rest, k, a =>
    if k0 == k then (k, a) :: rest else (k0, a0) :: assocSet rest k a

/-- The tail of updateStatsH shared by both branches, once the fresh map
object newRoot holds the fresh DomainStats copy at dsA: bump count, set
lastSeen, and extend the ruleIds array when the rule id is absent (the
extension allocates a new array and repoints the copy; the old array is never
written). -/
def finishUpdate (h : Heap) (newRoot dsA : Nat) (ruleId : String) (now : Nat) :
    Option (Heap × Nat) :=
  match h.lookup dsA with
  | some (HVal.statObj c _ rIds) =>
    let h1 := h.write dsA (HVal.statObj (c + 1) now rIds)
    match h1.lookup rIds with
    | some (HVal.arrObj elems) =>
      if ruleId ∈ elems then some (h1, newRoot)
      else
        let arrB := h1.next
        let h2 := h1.alloc (HVal.arrObj (elems ++ [ruleId]))
        some (h2.write dsA (HVal.statObj (c + 1) now arrB), newRoot)
    | _ => none
  | _ => none

/-- Shallow embedding of updateStats from requestTracking.ts at the heap
level, returning the new heap and the address of the freshly built map. -/
def updateStatsH (h0 : Heap) (root : Nat) (domain ruleId : String) (now : Nat) :
    Option (Heap × Nat) :=
  match h0.lookup root with
  | some (HVal.mapObj entries) =>
    let newRoot := h0.next
    let heap1 := h0.alloc (HVal.mapObj entries)
    match assocGet entries domain with
    | none =>
      let arrA := heap1.next
      let heap2 := heap1.alloc (HVal.arrObj [])
      let dsA := heap2.next
      let heap3 := heap2.alloc (HVal.statObj 0 now arrA)
      let heap4 := heap3.write newRoot (HVal.mapObj (assocSet entries domain dsA))
      finishUpdate heap4 newRoot dsA ruleId now
    | some oldDsA =>
      match heap1.lookup oldDsA with
      | some (HVal.statObj c ls rIds) =>
        let dsA := heap1.next
        let heap2 := heap1.alloc (HVal.statObj c ls rIds)
        let heap3 := heap2.write newRoot (HVal.mapObj (assocSet entries domain dsA))
        finishUpdate heap3 newRoot dsA ruleId now
      | _ => none
  | _ => none

/-! ### Concrete examples used by witnesses -/

/-- A sample enabled rule used to build capacity-test rule lists. -/
def sampleRule : AuthRule :=
  { id := "r", pattern := "*.example.com", token := "tok", enabled := true,
    createdAt := 0, updatedAt := 0 }

/-- 301 enabled rules: one over the capacity limit. -/
def rules301 : List AuthRule := List.replicate 301 sampleRule

/-- Exactly 300 enabled rules: at the capacity limit. -/
def rules300 : List AuthRule := List.replicate 300 sampleRule

/-- The compile-ordering example of the specification: three enabled rules
whose patterns are listed from least to most specific. -/
def exThreeRules : List AuthRule :=
  [ { id := "a", pattern := "*.com", token := "t1", enabled := true,
      createdAt := 0, updatedAt := 0 },
    { id := "b", pattern := "*.example.com", token := "t2", enabled := true,
      createdAt := 0, updatedAt := 0 },
    { id := "c", pattern := "api.example.com", token := "t3", enabled := true,
      createdAt := 0, updatedAt := 0 } ]

/-- The directive list compile produces for exThreeRules. -/
def exThreeDirectives : List ChromeRule :=
  [ { id := 1, priority := 1030, headerValue := "Bearer t3",
      urlFilter := "api.example.com", resourceTypes := ["xmlhttprequest", "other"] },
    { id := 2, priority := 1019, headerValue := "Bearer t2",
      urlFilter := "*.example.com", resourceTypes := ["xmlhttprequest", "other"] },
    { id := 3, priority := 1009, headerValue := "Bearer t1",
      urlFilter := "*.com", resourceTypes := ["xmlhttprequest", "other"] } ]

/-! ## Claim theorems -/

/-- On strings free of line terminators (every real pattern), the
regex-modelled path strip is exactly "truncate at the first slash". -/
theorem stripPath_takeWhile : ∀ cs : List Char, (∀ c ∈ cs, lineTerm c = false) →
    stripPath cs = cs.takeWhile (fun c => c != '/') := by
  intro cs
  induction cs with
  | nil => intro _; rfl
  | cons c rest ih =>
    intro hno
    by_cases hc : (c == '/') = true
    · have hcs : c = '/' := by simpa using hc
      subst hcs
      have hfree : noLineTerm rest = true := by
        simp only [noLineTerm, List.all_eq_true]
        intro x hx
        simp [hno x (List.mem_cons_of_mem _ hx)]
      simp [stripPath, List.takeWhile, hfree]
    · have hc2 : (c == '/') = false := by simpa using hc
      have htail := ih (fun x hx => hno x (List.mem_cons_of_mem _ hx))
      simp [stripPath, List.takeWhile, hc2, htail, bne]

/-- C5: for every pattern string, the specificity scorer first strips any
leading scheme prefix and trailing path suffix (cleanPattern), then equals
10 times the number of dot-separated segments that are non-empty and not the
literal wildcard, minus the total number of wildcard occurrences; for
line-terminator-free patterns the path strip is precisely truncation at the
first slash of the scheme-stripped pattern.  In particular a bare wildcard
scores -1, the empty string scores 0, and the concrete six-pattern ordering
of the specification holds. -/
theorem calculateSpecificity_spec :
    (∀ p : String,
      calculateSpecificity p
        = 10 * (specificParts (cleanPattern p) : Int) - (wildcardCount (cleanPattern p) : Int))
    ∧ (∀ p : String, (∀ c ∈ p.data, lineTerm c = false) →
        cleanPattern p = (stripScheme p.data).takeWhile (fun c => c != '/'))
    ∧ calculateSpecificity "*" = -1
    ∧ calculateSpecificity "" = 0
    ∧ calculateSpecificity "api.staging.example.com" > calculateSpecificity "api.example.com"
    ∧ calculateSpecificity "api.example.com" > calculateSpecificity "*.staging.example.com"
    ∧ calculateSpecificity "*.staging.example.com" > calculateSpecificity "example.com"
    ∧ calculateSpecificity "example.com" > calculateSpecificity "*.example.com"
    ∧ calculateSpecificity "*.example.com" > calculateSpecificity "*.com" := by
  refine ⟨fun p => ?_, fun p hfree => ?_, by decide, by decide, by decide, by decide,
    by decide, by decide, by decide⟩
  · unfold calculateSpecificity
    ring
  · have hsub : ∀ c ∈ stripScheme p.data, lineTerm c = false := by
      intro c hc
      have hmem : c ∈ p.data := by
        unfold stripScheme at hc
        split at hc
        · split at hc
          · split at hc
            · exact List.mem_of_mem_drop hc
            · exact hc
          · exact hc
        · exact hc
      exact hfree c hmem
    unfold cleanPattern
    exact stripPath_takeWhile _ hsub

/-- Witness for C5: a concrete pattern with scheme and path reduces to the
first-slash truncation of its scheme-stripped form. -/
theorem calculateSpecificity_spec_witness :
    (∀ c ∈ ("https://api.example.com/v1/users").data, lineTerm c = false)
    ∧ cleanPattern "https://api.example.com/v1/users"
        = (stripScheme ("https://api.example.com/v1/users").data).takeWhile (fun c => c != '/')
    ∧ cleanPattern "https://api.example.com/v1/users" = ("api.example.com").data :=
  ⟨by decide, calculateSpecificity_spec.2.1 "https://api.example.com/v1/users" (by decide),
   by decide⟩

/-- C3: the Authorization header value is the Bearer-prefixed token for the
Bearer scheme, the token verbatim for Raw, the Basic-prefixed token for
Basic, and any absent or unrecognized scheme behaves exactly like Bearer. -/
theorem buildAuthHeaderValue_schemes :
    ∀ token : String,
      buildAuthHeaderValue (some "Bearer") token = "Bearer " ++ token
      ∧ buildAuthHeaderValue (some "Raw") token = token
      ∧ buildAuthHeaderValue (some "Basic") token = "Basic " ++ token
      ∧ buildAuthHeaderValue none token = buildAuthHeaderValue (some "Bearer") token
      ∧ (∀ s : String, s ≠ "Raw" → s ≠ "Basic" →
          buildAuthHeaderValue (some s) token = buildAuthHeaderValue (some "Bearer") token) := by
  intro token
  refine ⟨rfl, rfl, rfl, rfl, fun s hraw hbasic => ?_⟩
  simp only [buildAuthHeaderValue]
  by_cases h0 : s = ""
  · subst h0; rfl
  · have h0b : (s == "") = false := by simpa using h0
    have hrb : (s == "Raw") = false := by simpa using hraw
    have hcb : (s == "Basic") = false := by simpa using hbasic
    by_cases hb : s = "Bearer"
    · subst hb; rfl
    · have hbb : (s == "Bearer") = false := by simpa using hb
      simp [h0b, hbb, hrb, hcb]

/-- Witness for C3 at concrete inputs: token abc with each scheme, and the
unrecognized scheme Token. -/
theorem buildAuthHeaderValue_schemes_witness :
    buildAuthHeaderValue (some "Bearer") "abc" = "Bearer " ++ "abc"
    ∧ buildAuthHeaderValue (some "Raw") "abc" = "abc"
    ∧ buildAuthHeaderValue (some "Basic") "abc" = "Basic " ++ "abc"
    ∧ buildAuthHeaderValue none "abc" = buildAuthHeaderValue (some "Bearer") "abc"
    ∧ buildAuthHeaderValue (some "Token") "abc" = buildAuthHeaderValue (some "Bearer") "abc" :=
  ⟨(buildAuthHeaderValue_schemes "abc").1,
   (buildAuthHeaderValue_schemes "abc").2.1,
   (buildAuthHeaderValue_schemes "abc").2.2.1,
   (buildAuthHeaderValue_schemes "abc").2.2.2.1,
   (buildAuthHeaderValue_schemes "abc").2.2.2.2 "Token" (by decide) (by decide)⟩

/-! ### Matcher lemmas (shared) -/

/-- Number of literal dot characters in a string. -/
def dotCount : List Char → Nat
  | [] => 0
  | c :: cs => (if c == '.' then 1 else 0) + dotCount cs

/-- Number of literal-dot items in a compiled matcher. -/
def litDotCount : List GItem → Nat
  | [] => 0
  | GItem.lit c :: rest => (if c == '.' then 1 else 0) + litDotCount rest
  | GItem.dot :: rest => litDotCount rest
  | GItem.star :: rest => litDotCount rest

/-- The matcher item a single pattern character compiles to: a wildcard
becomes star, anything else a literal. -/
def toItem (c : Char) : GItem :=
  if c == '*' then GItem.star else GItem.lit c

/-- Reduction of the matcher compiler on a backslash escape. -/
theorem parseRegexItems_escaped (d : Char) (rest : List Char) :
    parseRegexItems ('\\' :: d :: rest)
      = (parseRegexItems rest).map (fun items => GItem.lit d :: items) := by
  conv_lhs => rw [parseRegexItems.eq_def]
  simp

/-- Reduction of the matcher compiler on a dot-asterisk wildcard. -/
theorem parseRegexItems_dotstar (rest : List Char) :
    parseRegexItems ('.' :: '*' :: rest)
      = (parseRegexItems rest).map (fun items => GItem.star :: items) := by
  conv_lhs => rw [parseRegexItems.eq_def]
  simp

/-- Reduction of the matcher compiler on a plain (non-metacharacter)
character. -/
theorem parseRegexItems_plain (c : Char) (rest : List Char)
    (h1 : (c == '\\') = false) (h2 : (c == '.') = false) (h3 : (c == '*') = false)
    (hspf : regexSpecial c = false) :
    parseRegexItems (c :: rest)
      = (parseRegexItems rest).map (fun items => GItem.lit c :: items) := by
  conv_lhs => rw [parseRegexItems.eq_def]
  simp [h1, h2, h3, hspf]

/-- The escape pass always produces a compilable matcher, namely the literal
translation of the pattern with wildcards as stars.  This is why the
try/catch around the regex construction in matchesHostname can never fire. -/
theorem parse_escape : ∀ cs : List Char,
    parseRegexItems (escapeRegex cs) = some (cs.map toItem) := by
  intro cs
  induction cs with
  | nil => rfl
  | cons c cs ih =>
    by_cases hsp : regexSpecial c = true
    · have hstar : ¬ c = '*' := by
        intro h; subst h; simp [regexSpecial] at hsp
      have hlit : toItem c = GItem.lit c := by
        simp [toItem, hstar]
      rw [show escapeRegex (c :: cs) = '\\' :: c :: escapeRegex cs from by
        simp [escapeRegex, hsp]]
      rw [parseRegexItems_escaped, ih]
      simp [hlit]
    · by_cases hst : c = '*'
      · subst hst
        rw [show escapeRegex ('*' :: cs) = '.' :: '*' :: escapeRegex cs from by
          simp [escapeRegex, regexSpecial]]
        rw [parseRegexItems_dotstar, ih]
        simp [toItem]
      · have h1 : (c == '\\') = false := by
          apply beq_eq_false_iff_ne.mpr
          intro h; subst h; simp [regexSpecial] at hsp
        have h2 : (c == '.') = false := by
          apply beq_eq_false_iff_ne.mpr
          intro h; subst h; simp [regexSpecial] at hsp
        have h3 : (c == '*') = false := beq_eq_false_iff_ne.mpr hst
        have hspf : regexSpecial c = false := by
          simpa using hsp
        have hlit : toItem c = GItem.lit c := by
          simp [toItem, hst]
        rw [show escapeRegex (c :: cs) = c :: escapeRegex cs from by
          simp [escapeRegex, hspf, h3]]
        rw [parseRegexItems_plain c _ h1 h2 h3 hspf, ih]
        simp [hlit]

/-- A wildcard consumes characters, so any suffix it can reach has no more
dots than the original string. -/
theorem starConsume_dotCount : ∀ (s t : List Char), t ∈ starConsume s →
    dotCount t ≤ dotCount s := by
  intro s
  induction s with
  | nil =>
    intro t ht
    simp [starConsume] at ht
    simp [ht]
  | cons c cs ih =>
    intro t ht
    simp only [starConsume, List.mem_cons] at ht
    rcases ht with h | h
    · exact le_of_eq (by rw [h])
    · by_cases hl : lineTerm c = true
      · simp [hl] at h
      · simp only [hl, Bool.false_eq_true, if_false] at h
        calc dotCount t ≤ dotCount cs := ih t h
        _ ≤ (if c == '.' then 1 else 0) + dotCount cs := Nat.le_add_left _ _
        _ = dotCount (c :: cs) := rfl

/-- A successful anchored match consumes one dot of the string for every
literal-dot item of the matcher. -/
theorem runGlob_dotCount : ∀ (items : List GItem) (s : List Char),
    runGlob items s = true → litDotCount items ≤ dotCount s := by
  intro items
  induction items with
  | nil =>
    intro s hs
    simp only [runGlob, List.isEmpty_iff] at hs
    simp [hs, dotCount, litDotCount]
  | cons it its ih =>
    intro s hs
    cases it with
    | lit p =>
      cases s with
      | nil => simp [runGlob] at hs
      | cons c cs =>
        simp only [runGlob, Bool.and_eq_true] at hs
        obtain ⟨hpc, hrest⟩ := hs
        have : p = c := by simpa using hpc
        subst this
        exact Nat.add_le_add_left (ih cs hrest) _
    | dot =>
      cases s with
      | nil => simp [runGlob] at hs
      | cons c cs =>
        simp only [runGlob, Bool.and_eq_true] at hs
        calc litDotCount (GItem.dot :: its) = litDotCount its := rfl
        _ ≤ dotCount cs := ih cs hs.2
        _ ≤ (if c == '.' then 1 else 0) + dotCount cs := Nat.le_add_left _ _
        _ = dotCount (c :: cs) := rfl
    | star =>
      simp only [runGlob, List.any_eq_true] at hs
      obtain ⟨t, ht, hglob⟩ := hs
      calc litDotCount (GItem.star :: its) = litDotCount its := rfl
      _ ≤ dotCount t := ih t hglob
      _ ≤ dotCount s := starConsume_dotCount s t ht

/-- Compiling a pattern preserves its dot count: stars are not dots. -/
theorem litDotCount_map_toItem : ∀ cs : List Char,
    litDotCount (cs.map toItem) = dotCount cs := by
  intro cs
  induction cs with
  | nil => rfl
  | cons c cs ih =>
    by_cases h : c = '*'
    · subst h
      simp [toItem, litDotCount, dotCount, ih]
    · have hb : (c == '*') = false := beq_eq_false_iff_ne.mpr h
      simp [toItem, hb, litDotCount, dotCount, ih]

/-- C4: a wildcard subdomain pattern never matches the bare parent domain:
for every hostname h the pattern star-dot-h fails to match h (the wildcard
needs a non-empty label before the dot, and h is too short to supply both the
extra label and the whole suffix), while the specification's concrete pair
behaves as stated. -/
theorem wildcard_excludes_parent :
    (∀ h : String, matchesHostname h ("*." ++ h) = false)
    ∧ matchesHostname "lytics.io" "*.lytics.io" = false
    ∧ matchesHostname "api.lytics.io" "*.lytics.io" = true := by
  refine ⟨fun h => ?_, by decide, by decide⟩
  cases hm : matchesHostname h ("*." ++ h) with
  | false => rfl
  | true =>
    exfalso
    unfold matchesHostname at hm
    have hdata : ("*." ++ h).data = '*' :: '.' :: h.data := by
      simp
    rw [hdata] at hm
    have c1 : asciiLower '*' = '*' := by decide
    have c2 : asciiLower '.' = '.' := by decide
    have hfold : asciiFold ('*' :: '.' :: h.data) = '*' :: '.' :: asciiFold h.data := by
      simp [asciiFold, c1, c2]
    rw [hfold, parse_escape ('*' :: '.' :: asciiFold h.data)] at hm
    simp only [List.map_cons] at hm
    have t1 : toItem '*' = GItem.star := by decide
    have t2 : toItem '.' = GItem.lit '.' := by decide
    rw [t1, t2] at hm
    have hcount := runGlob_dotCount _ _ hm
    have hlit : litDotCount (GItem.star :: GItem.lit '.' :: (asciiFold h.data).map toItem)
        = 1 + dotCount (asciiFold h.data) := by
      simp [litDotCount, litDotCount_map_toItem]
    rw [hlit] at hcount
    omega

/-- C9: matchesHostname is total and never throws: the escape pass makes
every pattern compile (so the catch branch returning false is unreachable,
and a pattern such as a lone open bracket simply fails to match a hostname),
and extractHostname maps any URL the platform parser rejects to none instead
of propagating the exception. -/
theorem matcher_never_throws :
    (∀ p : String, (parseRegexItems (escapeRegex (asciiFold p.data))).isSome = true)
    ∧ matchesHostname "example.com" "[" = false
    ∧ (∀ (urlHostname : String → Except String String) (url msg : String),
        urlHostname url = Except.error msg → extractHostname urlHostname url = none) := by
  refine ⟨fun p => ?_, by decide, fun f url msg hmsg => ?_⟩
  · rw [parse_escape]; rfl
  · simp [extractHostname, hmsg]

/-- Witness for C9: a parser that rejects everything makes extractHostname
return none on a concrete URL. -/
theorem matcher_never_throws_witness :
    (fun _ : String => (Except.error "invalid URL" : Except String String)) "not a url"
      = Except.error "invalid URL"
    ∧ extractHostname (fun _ => Except.error "invalid URL") "not a url" = none :=
  ⟨rfl, matcher_never_throws.2.2 (fun _ => Except.error "invalid URL") "not a url"
    "invalid URL" rfl⟩

/-! ### Statistics lemmas (value level) -/

/-- Reading back the key just written returns the written record. -/
theorem getStat_setStat_self (m : RequestStatsMap) (d : String) (v : DomainStats) :
    getStat (setStat m d v) d = some v := by
  induction m with
  | nil => simp [setStat, getStat, List.find?]
  | cons p rest ih =>
    obtain ⟨k, w⟩ := p
    by_cases hk : (k == d) = true
    · simp [setStat, hk, getStat, List.find?]
    · have hk2 : (k == d) = false := by simpa using hk
      simp [setStat, hk2, getStat, List.find?] at ih ⊢
      exact ih

/-- C7 counterexample: starting from a stats map whose entry already holds
the rule id twice (as the claim's universal quantification over stats maps
allows), two updateStats applications leave the duplicate in place, so the
ruleIds list contains the rule id twice, not exactly once. -/
theorem updateStats_replay_counterexample :
    (statRuleIds (updateStats (updateStats
        [("example.com", { count := 0, lastSeen := 0, ruleIds := ["r1", "r1"] })]
        "example.com" "r1" 5) "example.com" "r1" 6) "example.com").count "r1" = 2
    ∧ (statRuleIds (updateStats (updateStats
        [("example.com", { count := 0, lastSeen := 0, ruleIds := ["r1", "r1"] })]
        "example.com" "r1" 5) "example.com" "r1" 6) "example.com").count "r1" ≠ 1 := by
  constructor
  · decide
  · decide

/-- C7 (amended): applying updateStats twice with the same domain and rule id
increases the domain's count by exactly 2 (a missing entry counting as 0),
never removes anything from the ruleIds list (the input list is a prefix of
the output), and brings the number of occurrences of the rule id to
max 1 (its input occurrences); in particular the rule id occurs exactly once
whenever the input entry held it at most once (so always when starting from a
deduplicated map, and in particular from an absent entry). -/
theorem updateStats_replay :
    ∀ (m : RequestStatsMap) (domain ruleId : String) (n1 n2 : Nat),
      statCount (updateStats (updateStats m domain ruleId n1) domain ruleId n2) domain
        = statCount m domain + 2
      ∧ (statRuleIds (updateStats (updateStats m domain ruleId n1) domain ruleId n2)
          domain).count ruleId
          = max 1 ((statRuleIds m domain).count ruleId)
      ∧ (∃ t, statRuleIds (updateStats (updateStats m domain ruleId n1) domain ruleId n2)
          domain = statRuleIds m domain ++ t)
      ∧ ((statRuleIds m domain).count ruleId ≤ 1 →
          (statRuleIds (updateStats (updateStats m domain ruleId n1) domain ruleId n2)
            domain).count ruleId = 1) := by
  intro m domain ruleId n1 n2
  cases hg : getStat m domain with
  | none =>
    have h1 : updateStats m domain ruleId n1
        = setStat m domain { count := 1, lastSeen := n1, ruleIds := [ruleId] } := by
      simp [updateStats, hg]
    have hg1 := getStat_setStat_self m domain
      { count := 1, lastSeen := n1, ruleIds := [ruleId] }
    have h2 : updateStats (updateStats m domain ruleId n1) domain ruleId n2
        = setStat (setStat m domain { count := 1, lastSeen := n1, ruleIds := [ruleId] })
            domain { count := 2, lastSeen := n2, ruleIds := [ruleId] } := by
      rw [h1]
      simp [updateStats, hg1]
    rw [h2]
    have hg2 := getStat_setStat_self
      (setStat m domain { count := 1, lastSeen := n1, ruleIds := [ruleId] }) domain
      { count := 2, lastSeen := n2, ruleIds := [ruleId] }
    refine ⟨?_, ?_, ⟨[ruleId], ?_⟩, ?_⟩ <;>
      simp [statCount, statRuleIds, hg2, hg]
  | some s =>
    by_cases hr : ruleId ∈ s.ruleIds
    · have h1 : updateStats m domain ruleId n1
          = setStat m domain { count := s.count + 1, lastSeen := n1, ruleIds := s.ruleIds } := by
        simp [updateStats, hg, hr]
      have hg1 := getStat_setStat_self m domain
        { count := s.count + 1, lastSeen := n1, ruleIds := s.ruleIds }
      have h3 : updateStats (updateStats m domain ruleId n1) domain ruleId n2
          = setStat (setStat m domain
              { count := s.count + 1, lastSeen := n1, ruleIds := s.ruleIds })
              domain { count := s.count + 2, lastSeen := n2, ruleIds := s.ruleIds } := by
        rw [h1]
        simp [updateStats, hg1, hr]
      rw [h3]
      have hg2 := getStat_setStat_self
        (setStat m domain { count := s.count + 1, lastSeen := n1, ruleIds := s.ruleIds })
        domain { count := s.count + 2, lastSeen := n2, ruleIds := s.ruleIds }
      have hpos : 1 ≤ s.ruleIds.count ruleId := List.count_pos_iff.mpr hr
      refine ⟨?_, ?_, ⟨[], ?_⟩, ?_⟩
      · simp [statCount, hg2, hg]
      · simp only [statRuleIds, hg2, hg]
        exact (Nat.max_eq_right hpos).symm
      · simp [statRuleIds, hg2, hg]
      · intro hle
        simp only [statRuleIds, hg2, hg] at hle ⊢
        omega
    · have h1 : updateStats m domain ruleId n1
          = setStat m domain
              { count := s.count + 1, lastSeen := n1, ruleIds := s.ruleIds ++ [ruleId] } := by
        simp [updateStats, hg, hr]
      have hg1 := getStat_setStat_self m domain
        { count := s.count + 1, lastSeen := n1, ruleIds := s.ruleIds ++ [ruleId] }
      have hr2 : ruleId ∈ s.ruleIds ++ [ruleId] := by simp
      have h3 : updateStats (updateStats m domain ruleId n1) domain ruleId n2
          = setStat (setStat m domain
              { count := s.count + 1, lastSeen := n1, ruleIds := s.ruleIds ++ [ruleId] })
              domain
              { count := s.count + 2, lastSeen := n2, ruleIds := s.ruleIds ++ [ruleId] } := by
        rw [h1]
        simp [updateStats, hg1, hr2]
      rw [h3]
      have hg2 := getStat_setStat_self
        (setStat m domain
          { count := s.count + 1, lastSeen := n1, ruleIds := s.ruleIds ++ [ruleId] })
        domain { count := s.count + 2, lastSeen := n2, ruleIds := s.ruleIds ++ [ruleId] }
      have hzero : s.ruleIds.count ruleId = 0 := List.count_eq_zero.mpr hr
      refine ⟨?_, ?_, ⟨[ruleId], ?_⟩, ?_⟩ <;>
        simp [statCount, statRuleIds, hg2, hg, List.count_append]
      · omega
      · omega

/-- Witness for C7 (amended): two updates on an empty map leave the rule id
exactly once. -/
theorem updateStats_replay_witness :
    ((statRuleIds ([] : RequestStatsMap) "api.lytics.io").count "rule-1" ≤ 1)
    ∧ (statRuleIds (updateStats (updateStats [] "api.lytics.io" "rule-1" 3)
        "api.lytics.io" "rule-1" 4) "api.lytics.io").count "rule-1" = 1 :=
  ⟨by decide, (updateStats_replay [] "api.lytics.io" "rule-1" 3 4).2.2.2 (by decide)⟩

/-! ### Compiler lemmas -/

deriving instance DecidableEq for Except

/-- Building Chrome rules preserves the number of rules. -/
theorem buildChromeRules_length : ∀ (i : Nat) (l : List AuthRule),
    (buildChromeRules i l).length = l.length := by
  intro i l
  induction l generalizing i with
  | nil => rfl
  | cons r rs ih => simp [buildChromeRules, ih]

/-- The ids assigned by buildChromeRules are consecutive from the start index
plus one. -/
theorem buildChromeRules_map_id : ∀ (i : Nat) (l : List AuthRule),
    (buildChromeRules i l).map (fun d => d.id) = List.range' (i + 1) l.length := by
  intro i l
  induction l generalizing i with
  | nil => rfl
  | cons r rs ih =>
    simp only [buildChromeRules, List.map_cons, List.length_cons]
    rw [List.range'_succ (i + 1) rs.length 1]
    simp [ih]

/-- C2: compile fails exactly on enabled-rule counts above 300, with an error
carrying the attempted count and the limit 300, and a failed enable leaves
the engine's installed directives untouched; at or below 300 it succeeds. -/
theorem compile_capacity :
    ∀ rules : List AuthRule,
      ((rules.filter (fun r => r.enabled)).length > 300 →
        compile rules = Except.error
          { count := (rules.filter (fun r => r.enabled)).length, limit := 300 }
        ∧ ∀ engine : List ChromeRule, enableEngine rules engine = engine)
      ∧ ((rules.filter (fun r => r.enabled)).length ≤ 300 →
        ∃ ds, compile rules = Except.ok ds) := by
  intro rules
  constructor
  · intro hgt
    have hc : compile rules = Except.error
        { count := (rules.filter (fun r => r.enabled)).length, limit := 300 } := by
      simp [compile, hgt]
    exact ⟨hc, fun engine => by simp [enableEngine, hc]⟩
  · intro hle
    refine ⟨buildChromeRules 0 ((rules.filter (fun r => r.enabled)).mergeSort ruleLe), ?_⟩
    have hngt : ¬ ((rules.filter (fun r => r.enabled)).length > 300) := by omega
    simp [compile, hngt]

set_option maxRecDepth 40000 in
/-- Witness for C2: 301 enabled rules are rejected as 301 over 300 and leave
any engine state unchanged; 300 enabled rules compile. -/
theorem compile_capacity_witness :
    ((rules301.filter (fun r => r.enabled)).length > 300
      ∧ compile rules301 = Except.error { count := 301, limit := 300 }
      ∧ ∀ engine : List ChromeRule, enableEngine rules301 engine = engine)
    ∧ ((rules300.filter (fun r => r.enabled)).length ≤ 300
      ∧ ∃ ds, compile rules300 = Except.ok ds) := by
  constructor
  · have hlen : (rules301.filter (fun r => r.enabled)).length = 301 := by decide
    have h := (compile_capacity rules301).1 (by decide)
    rw [hlen] at h
    exact ⟨by decide, h.1, h.2⟩
  · exact ⟨by decide, (compile_capacity rules300).2 (by decide)⟩

/-- C6: every successful compile assigns directive ids that are exactly the
contiguous range from 1 to the number of enabled rules, with no gaps and no
duplicates, independently of the rules' own id fields (the ids come from
positions in the sorted output alone). -/
theorem compile_ids_contiguous :
    ∀ (rules : List AuthRule) (ds : List ChromeRule),
      compile rules = Except.ok ds →
      ds.length = (rules.filter (fun r => r.enabled)).length
      ∧ ds.map (fun d => d.id) = List.range' 1 ds.length := by
  intro rules ds h
  by_cases hgt : (rules.filter (fun r => r.enabled)).length > 300
  · simp [compile, hgt] at h
  · simp [compile, hgt] at h
    have hlen : ds.length = (rules.filter (fun r => r.enabled)).length := by
      rw [← h, buildChromeRules_length, List.length_mergeSort]
    refine ⟨hlen, ?_⟩
    rw [← h, buildChromeRules_map_id]
    simp [buildChromeRules_length, List.length_mergeSort]

unseal List.merge List.mergeSort in
/-- Witness for C6: the three-rule example compiles to directives with ids
exactly 1, 2, 3. -/
theorem compile_ids_contiguous_witness :
    compile exThreeRules = Except.ok exThreeDirectives
    ∧ (exThreeDirectives.length = (exThreeRules.filter (fun r => r.enabled)).length
      ∧ exThreeDirectives.map (fun d => d.id) = List.range' 1 exThreeDirectives.length) :=
  ⟨by decide, compile_ids_contiguous exThreeRules exThreeDirectives (by decide)⟩

/-- The comparator ordering is transitive. -/
theorem ruleLe_trans : ∀ (a b c : AuthRule),
    ruleLe a b = true → ruleLe b c = true → ruleLe a c = true := by
  intro a b c hab hbc
  simp only [ruleLe, decide_eq_true_eq] at hab hbc ⊢
  exact le_trans hbc hab

/-- The comparator ordering is total. -/
theorem ruleLe_total : ∀ (a b : AuthRule), (ruleLe a b || ruleLe b a) = true := by
  intro a b
  simp only [ruleLe, Bool.or_eq_true, decide_eq_true_eq]
  exact Int.le_total _ _

/-- Every built directive takes its urlFilter and priority from some rule of
the input list, with priority 1000 plus that rule's specificity. -/
theorem mem_buildChromeRules : ∀ (i : Nat) (l : List AuthRule) (d : ChromeRule),
    d ∈ buildChromeRules i l →
    ∃ r ∈ l, d.urlFilter = r.pattern
      ∧ d.priority = 1000 + calculateSpecificity r.pattern := by
  intro i l
  induction l generalizing i with
  | nil => intro d hd; simp [buildChromeRules] at hd
  | cons r rs ih =>
    intro d hd
    simp only [buildChromeRules, List.mem_cons] at hd
    rcases hd with h | h
    · subst h
      exact ⟨r, List.mem_cons_self r rs, rfl, rfl⟩
    · obtain ⟨q, hq, h1, h2⟩ := ih (i + 1) d h
      exact ⟨q, List.mem_cons_of_mem r hq, h1, h2⟩

set_option maxHeartbeats 1000000 in
/-- The rules of any fixed score, in input order, form a sublist of the
sorted output (stability half 1: the sort cannot reorder equal-score
rules). -/
theorem mergeSort_filter_score_sublist (l : List AuthRule) (s : Int) :
    List.Sublist (l.filter (fun r => calculateSpecificity r.pattern == s))
      ((l.mergeSort ruleLe).filter (fun r => calculateSpecificity r.pattern == s)) := by
  have hc : ∀ a ∈ l.filter (fun r => calculateSpecificity r.pattern == s),
      ∀ b ∈ l.filter (fun r => calculateSpecificity r.pattern == s), ruleLe a b = true := by
    intro a ha b hb
    have hpa := List.of_mem_filter ha
    have hpb := List.of_mem_filter hb
    simp only [beq_iff_eq] at hpa hpb
    simp [ruleLe, hpa, hpb]
  have hpw : (l.filter (fun r => calculateSpecificity r.pattern == s)).Pairwise
      (fun a b => ruleLe a b = true) :=
    List.pairwise_of_forall_mem_list hc
  have hsub : List.Sublist (l.filter (fun r => calculateSpecificity r.pattern == s)) l :=
    List.filter_sublist l
  have h1 : List.Sublist (l.filter (fun r => calculateSpecificity r.pattern == s))
      (l.mergeSort ruleLe) :=
    List.sublist_mergeSort ruleLe_trans ruleLe_total hpw hsub
  have hidem : (l.filter (fun r => calculateSpecificity r.pattern == s)).filter
      (fun r => calculateSpecificity r.pattern == s)
      = l.filter (fun r => calculateSpecificity r.pattern == s) :=
    List.filter_eq_self.mpr (fun a ha => (List.mem_filter.mp ha).2)
  have hf := h1.filter (fun r => calculateSpecificity r.pattern == s)
  rwa [hidem] at hf

/-- Sorting permutes, so filtering by a fixed score yields lists of the same
length on both sides. -/
theorem mergeSort_filter_score_length (l : List AuthRule) (s : Int) :
    ((l.mergeSort ruleLe).filter (fun r => calculateSpecificity r.pattern == s)).length
      = (l.filter (fun r => calculateSpecificity r.pattern == s)).length := by
  have hp : List.Perm (l.mergeSort ruleLe) l := List.mergeSort_perm l ruleLe
  have hpf := List.Perm.filter (fun r => calculateSpecificity r.pattern == s) hp
  exact hpf.length_eq

/-- Stability of the sort, phrased without reference to the sorting
algorithm: for any fixed score, the subsequence of rules having that score is
exactly the same (same rules, same order) before and after sorting.  Together
with sortedness and the fact that sorting permutes, this pins the output down
to the unique stable descending order. -/
theorem mergeSort_filter_score (l : List AuthRule) (s : Int) :
    (l.mergeSort ruleLe).filter (fun r => calculateSpecificity r.pattern == s)
      = l.filter (fun r => calculateSpecificity r.pattern == s) := by
  have h1 := mergeSort_filter_score_sublist l s
  have h2 := mergeSort_filter_score_length l s
  exact (h1.eq_of_length h2.symm).symm

unseal List.merge List.mergeSort in
/-- C1: for every rule list with at most 300 enabled rules, compile succeeds
and produces the directives in descending specificity order of their
patterns, with the sort stable (for each score the rules of that score appear
in input order) and each directive's priority equal to 1000 plus the
specificity of its pattern; on the specification's three-pattern example the
most specific pattern gets the highest priority and ids are 1, 2, 3. -/
theorem compile_specificity_order :
    (∀ rules : List AuthRule,
      (rules.filter (fun r => r.enabled)).length ≤ 300 →
        compile rules = Except.ok (buildChromeRules 0 (sortedEnabled rules))
        ∧ (sortedEnabled rules).Pairwise
            (fun a b => calculateSpecificity b.pattern ≤ calculateSpecificity a.pattern)
        ∧ (∀ s : Int,
            (sortedEnabled rules).filter (fun r => calculateSpecificity r.pattern == s)
              = (rules.filter (fun r => r.enabled)).filter
                  (fun r => calculateSpecificity r.pattern == s))
        ∧ (∀ d ∈ buildChromeRules 0 (sortedEnabled rules),
            d.priority = 1000 + calculateSpecificity d.urlFilter))
    ∧ (compile exThreeRules).map (fun ds => ds.map (fun d => (d.id, d.urlFilter, d.priority)))
        = Except.ok [(1, "api.example.com", 1030), (2, "*.example.com", 1019),
            (3, "*.com", 1009)] := by
  constructor
  · intro rules hle
    have hngt : ¬ ((rules.filter (fun r => r.enabled)).length > 300) := by omega
    refine ⟨by simp [compile, sortedEnabled, hngt], ?_, ?_, ?_⟩
    · have hs := List.sorted_mergeSort ruleLe_trans ruleLe_total
        (rules.filter (fun r => r.enabled))
      exact hs.imp (fun hab => by simpa [ruleLe] using hab)
    · intro s
      exact mergeSort_filter_score _ s
    · intro d hd
      obtain ⟨r, _, h1, h2⟩ := mem_buildChromeRules 0 _ d hd
      rw [h1]
      exact h2
  · decide

/-- Witness for C1: the three-rule example satisfies the hypothesis and the
conclusion. -/
theorem compile_specificity_order_witness :
    ((exThreeRules.filter (fun r => r.enabled)).length ≤ 300)
    ∧ (compile exThreeRules = Except.ok (buildChromeRules 0 (sortedEnabled exThreeRules))
      ∧ (sortedEnabled exThreeRules).Pairwise
          (fun a b => calculateSpecificity b.pattern ≤ calculateSpecificity a.pattern)
      ∧ (∀ s : Int,
          (sortedEnabled exThreeRules).filter (fun r => calculateSpecificity r.pattern == s)
            = (exThreeRules.filter (fun r => r.enabled)).filter
                (fun r => calculateSpecificity r.pattern == s))
      ∧ (∀ d ∈ buildChromeRules 0 (sortedEnabled exThreeRules),
          d.priority = 1000 + calculateSpecificity d.urlFilter)) :=
  ⟨by decide, compile_specificity_order.1 exThreeRules (by decide)⟩

/-! ### First-match lookup -/

/-- Characterization of List.find?: a hit satisfies the predicate and sits at
an index all of whose predecessors fail it. -/
theorem find?_first_characterization {α : Type} (p : α → Bool) :
    ∀ (l : List α) (a : α), l.find? p = some a →
      p a = true ∧ ∃ i : Nat, ∃ hi : i < l.length, l.get ⟨i, hi⟩ = a
        ∧ ∀ j (hj : j < l.length), j < i → p (l.get ⟨j, hj⟩) = false := by
  intro l
  induction l with
  | nil => intro a h; simp at h
  | cons x xs ih =>
    intro a h
    cases hx : p x with
    | true =>
      rw [List.find?_cons_of_pos _ hx] at h
      cases h
      refine ⟨hx, 0, by simp, rfl, ?_⟩
      intro j hj hji
      omega
    | false =>
      rw [List.find?_cons_of_neg _ (by simp [hx])] at h
      obtain ⟨hpa, i, hi, hget, hprev⟩ := ih a h
      refine ⟨hpa, i + 1, by simpa using hi, by simpa using hget, ?_⟩
      intro j hj hji
      cases j with
      | zero => simpa using hx
      | succ k =>
        have hk : k < xs.length := by
          simp only [List.length_cons] at hj
          omega
        have hres := hprev k hk (by omega)
        simpa using hres

/-- C10: findMatchingRule does not consult the enabled flag: whenever the
platform parser yields a hostname, it returns exactly the first rule in list
order whose extracted domain pattern matches that hostname (and none when no
rule matches), regardless of the rules' enabled fields — the background
listener must pre-filter to enabled rules, as it does. -/
theorem findMatchingRule_first_match :
    ∀ (urlHostname : String → Except String String) (url hostname : String)
      (rules : List AuthRule),
      urlHostname url = Except.ok hostname →
      ((∀ r : AuthRule, findMatchingRule urlHostname url rules = some r →
          matchesHostname hostname (extractDomainPattern r.pattern) = true
          ∧ ∃ i : Nat, ∃ hi : i < rules.length, rules.get ⟨i, hi⟩ = r
              ∧ ∀ j (hj : j < rules.length), j < i →
                  matchesHostname hostname
                    (extractDomainPattern (rules.get ⟨j, hj⟩).pattern) = false)
       ∧ (findMatchingRule urlHostname url rules = none →
           ∀ r ∈ rules, matchesHostname hostname (extractDomainPattern r.pattern) = false)) := by
  intro f url hostname rules hok
  have hext : extractHostname f url = some hostname := by
    simp [extractHostname, hok]
  have hfind : findMatchingRule f url rules
      = rules.find? (fun rule => matchesHostname hostname (extractDomainPattern rule.pattern)) := by
    simp [findMatchingRule, hext]
  constructor
  · intro r hr
    rw [hfind] at hr
    exact find?_first_characterization _ rules r hr
  · intro hn r hmem
    rw [hfind] at hn
    have hne := List.find?_eq_none.mp hn r hmem
    simpa using hne

/-- A disabled rule whose pattern matches: used to witness that
findMatchingRule ignores the enabled flag. -/
def exDisabledRule : AuthRule :=
  { id := "r1", pattern := "*.lytics.io", token := "t", enabled := false,
    createdAt := 0, updatedAt := 0 }

/-- Witness for C10: with a parser returning a matching hostname, the
disabled rule is still returned as the first match. -/
theorem findMatchingRule_first_match_witness :
    findMatchingRule (fun _ => Except.ok "api.lytics.io") "https://api.lytics.io/x"
        [exDisabledRule] = some exDisabledRule
    ∧ exDisabledRule.enabled = false
    ∧ (matchesHostname "api.lytics.io" (extractDomainPattern exDisabledRule.pattern) = true
      ∧ ∃ i : Nat, ∃ hi : i < ([exDisabledRule] : List AuthRule).length,
          ([exDisabledRule] : List AuthRule).get ⟨i, hi⟩ = exDisabledRule
          ∧ ∀ j (hj : j < ([exDisabledRule] : List AuthRule).length), j < i →
              matchesHostname "api.lytics.io"
                (extractDomainPattern (([exDisabledRule] : List AuthRule).get ⟨j, hj⟩).pattern)
                = false) :=
  ⟨by decide, rfl,
   (findMatchingRule_first_match (fun _ => Except.ok "api.lytics.io")
       "https://api.lytics.io/x" "api.lytics.io" [exDisabledRule] rfl).1
     exDisabledRule (by decide)⟩

/-! ### Heap lemmas -/

/-- Allocation leaves every other address unchanged. -/
theorem lookup_alloc_of_ne (h : Heap) (v : HVal) (a : Nat) (ha : a ≠ h.next) :
    (h.alloc v).lookup a = h.lookup a := by
  have hne : (h.next == a) = false := beq_eq_false_iff_ne.mpr (Ne.symm ha)
  simp [Heap.lookup, Heap.alloc, List.find?, hne]

/-- Writing one address leaves every other address unchanged. -/
theorem lookup_write_of_ne (h : Heap) (b : Nat) (v : HVal) (a : Nat) (ha : a ≠ b) :
    (h.write b v).lookup a = h.lookup a := by
  suffices haux : ∀ mem : List (Nat × HVal),
      (mem.map (fun p => if p.1 == b then (b, v) else p)).find? (fun p => p.1 == a)
        = mem.find? (fun p => p.1 == a) by
    simp only [Heap.lookup, Heap.write]
    rw [haux h.mem]
  intro mem
  induction mem with
  | nil => rfl
  | cons q rest ih =>
    obtain ⟨k, w⟩ := q
    simp only [List.map_cons]
    by_cases hk : (k == b) = true
    · have hkb : k = b := by simpa using hk
      subst hkb
      have h1 : (k == a) = false := beq_eq_false_iff_ne.mpr (fun he => ha he.symm)
      rw [if_pos hk]
      rw [List.find?_cons_of_neg _ (by simp [h1]), List.find?_cons_of_neg _ (by simp [h1])]
      exact ih
    · have hk2 : (k == b) = false := by simpa using hk
      rw [if_neg (by simp [hk2])]
      cases hka : (k == a) with
      | true =>
        rw [List.find?_cons_of_pos _ (by simp [hka]), List.find?_cons_of_pos _ (by simp [hka])]
      | false =>
        rw [List.find?_cons_of_neg _ (by simp [hka]), List.find?_cons_of_neg _ (by simp [hka])]
        exact ih

/-- In a well-formed heap every allocated address is below next, so next is
unallocated. -/
theorem lookup_next_none (h : Heap) (hwf : ∀ q ∈ h.mem, q.1 < h.next) :
    h.lookup h.next = none := by
  simp only [Heap.lookup]
  cases hfind : h.mem.find? (fun p => p.1 == h.next) with
  | none => rfl
  | some q =>
    have hq := List.find?_some hfind
    have hmem : q ∈ h.mem := List.mem_of_find?_eq_some hfind
    have hlt := hwf q hmem
    have heq : q.1 = h.next := by simpa using hq
    omega

/-- Frame property of the common tail of the heap-level update: the only
addresses finishUpdate ever writes are the fresh stats copy dsA and addresses
it allocates itself, so every other previously allocated address keeps its
value; the returned root is the one passed in, and the allocation frontier
never moves backwards. -/
theorem finishUpdate_frame :
    ∀ (h : Heap) (newRoot dsA : Nat) (ruleId : String) (now : Nat)
      (hout : Heap) (rootOut : Nat),
      finishUpdate h newRoot dsA ruleId now = some (hout, rootOut) →
      rootOut = newRoot
      ∧ h.next ≤ hout.next
      ∧ ∀ a : Nat, a ≠ dsA → a < h.next → hout.lookup a = h.lookup a := by
  intro h newRoot dsA ruleId now hout rootOut hfin
  simp only [finishUpdate] at hfin
  split at hfin
  case _ c ls rIds heq =>
    split at hfin
    case _ elems heq2 =>
      split at hfin
      · cases hfin
        refine ⟨rfl, le_refl _, ?_⟩
        intro a hadsA halt
        exact lookup_write_of_ne h dsA _ a hadsA
      · cases hfin
        refine ⟨rfl, ?_, ?_⟩
        · show h.next ≤ h.next + 1
          omega
        · intro a hadsA halt
          calc (((h.write dsA (HVal.statObj (c + 1) now rIds)).alloc
                  (HVal.arrObj (elems ++ [ruleId]))).write dsA
                  (HVal.statObj (c + 1) now (h.write dsA
                    (HVal.statObj (c + 1) now rIds)).next)).lookup a
              = ((h.write dsA (HVal.statObj (c + 1) now rIds)).alloc
                  (HVal.arrObj (elems ++ [ruleId]))).lookup a :=
                lookup_write_of_ne _ dsA _ a hadsA
            _ = (h.write dsA (HVal.statObj (c + 1) now rIds)).lookup a :=
                lookup_alloc_of_ne _ _ a (by
                  show a ≠ (h.write dsA (HVal.statObj (c + 1) now rIds)).next
                  simp only [Heap.write]
                  omega)
            _ = h.lookup a := lookup_write_of_ne h dsA _ a hadsA
    all_goals cases hfin
  all_goals cases hfin

/-- C8: updateStats returns a new map and leaves its input entirely
unchanged.  At the heap level: the returned root is a freshly allocated
address (unallocated in the input heap when it is well formed), and every
address allocated before the call — the input map object, every one of its
DomainStats entries including the updated domain's, and every ruleIds
array — holds exactly the same value afterwards; the function only allocates
fresh objects and writes to those. -/
theorem updateStatsH_frame :
    ∀ (h0 : Heap) (root : Nat) (domain ruleId : String) (now : Nat)
      (hout : Heap) (newRoot : Nat),
      updateStatsH h0 root domain ruleId now = some (hout, newRoot) →
      newRoot = h0.next
      ∧ (∀ a : Nat, a < h0.next → hout.lookup a = h0.lookup a)
      ∧ ((∀ q ∈ h0.mem, q.1 < h0.next) → h0.lookup newRoot = none) := by
  intro h0 root domain ruleId now hout newRoot hup
  simp only [updateStatsH] at hup
  split at hup
  case _ entries heq =>
    split at hup
    case _ hget =>
      obtain ⟨hroot, hnext, hframe⟩ :=
        finishUpdate_frame _ _ _ _ _ _ _ hup
      refine ⟨hroot, ?_, ?_⟩
      · intro a halt
        have hdsA : a ≠ ((h0.alloc (HVal.mapObj entries)).alloc (HVal.arrObj [])).next := by
          simp only [Heap.alloc]
          omega
        have h1 := hframe a hdsA (by
          (try simp only [Heap.alloc, Heap.write])
          omega)
        rw [h1]
        rw [lookup_write_of_ne _ _ _ a (by omega)]
        rw [lookup_alloc_of_ne _ _ a (by (try simp only [Heap.alloc, Heap.write]); omega)]
        rw [lookup_alloc_of_ne _ _ a (by (try simp only [Heap.alloc, Heap.write]); omega)]
        rw [lookup_alloc_of_ne _ _ a (by omega)]
      · intro hwf
        rw [hroot]
        exact lookup_next_none h0 hwf
    case _ oldDsA hget =>
      split at hup
      case _ c ls rIds heq2 =>
        obtain ⟨hroot, hnext, hframe⟩ :=
          finishUpdate_frame _ _ _ _ _ _ _ hup
        refine ⟨hroot, ?_, ?_⟩
        · intro a halt
          have hdsA : a ≠ (h0.alloc (HVal.mapObj entries)).next := by
            simp only [Heap.alloc]
            omega
          have h1 := hframe a hdsA (by
            simp only [Heap.write, Heap.alloc]
            omega)
          rw [h1]
          rw [lookup_write_of_ne _ _ _ a (by omega)]
          rw [lookup_alloc_of_ne _ _ a (by (try simp only [Heap.alloc, Heap.write]); omega)]
          rw [lookup_alloc_of_ne _ _ a (by omega)]
        · intro hwf
          rw [hroot]
          exact lookup_next_none h0 hwf
      all_goals cases hup
  all_goals cases hup

/-- Witness for C8: running the heap-level update on a concrete well-formed
heap returns the fresh address 3 and leaves the three pre-existing cells
(the array at 0, the DomainStats at 1, the map at 2) untouched. -/
theorem updateStatsH_frame_witness :
    (∃ hout newRoot, updateStatsH
        { next := 3, mem := [(0, HVal.arrObj ["r0"]), (1, HVal.statObj 3 7 0),
            (2, HVal.mapObj [("example.com", 1)])] } 2 "example.com" "r1" 9
        = some (hout, newRoot)
      ∧ newRoot = 3
      ∧ (∀ a : Nat, a < 3 → hout.lookup a
          = Heap.lookup { next := 3, mem := [(0, HVal.arrObj ["r0"]), (1, HVal.statObj 3 7 0),
              (2, HVal.mapObj [("example.com", 1)])] } a)) := by
  refine ⟨{ next := 6, mem := [(5, HVal.arrObj ["r0", "r1"]), (4, HVal.statObj 4 9 5),
      (3, HVal.mapObj [("example.com", 4)]), (0, HVal.arrObj ["r0"]), (1, HVal.statObj 3 7 0),
      (2, HVal.mapObj [("example.com", 1)])] }, 3, by decide, ?_, ?_⟩
  · have h := updateStatsH_frame
      { next := 3, mem := [(0, HVal.arrObj ["r0"]), (1, HVal.statObj 3 7 0),
          (2, HVal.mapObj [("example.com", 1)])] } 2 "example.com" "r1" 9
      { next := 6, mem := [(5, HVal.arrObj ["r0", "r1"]), (4, HVal.statObj 4 9 5),
          (3, HVal.mapObj [("example.com", 4)]), (0, HVal.arrObj ["r0"]),
          (1, HVal.statObj 3 7 0), (2, HVal.mapObj [("example.com", 1)])] } 3 (by decide)
    exact h.1
  · have h := updateStatsH_frame
      { next := 3, mem := [(0, HVal.arrObj ["r0"]), (1, HVal.statObj 3 7 0),
          (2, HVal.mapObj [("example.com", 1)])] } 2 "example.com" "r1" 9
      { next := 6, mem := [(5, HVal.arrObj ["r0", "r1"]), (4, HVal.statObj 4 9 5),
          (3, HVal.mapObj [("example.com", 4)]), (0, HVal.arrObj ["r0"]),
          (1, HVal.statObj 3 7 0), (2, HVal.mapObj [("example.com", 1)])] } 3 (by decide)
    exact h.2.1

end AuthInjector
